import Mathlib

/-!
Verification of the off-axis projection core of the head-tracked
"window into box" renderer.

The embedding models the numeric core of the program over the rationals:

* the detection-to-target mapping performed in `onFaceResults`;
* the per-tick exponential smoothing performed at the top of `animate`;
* the off-axis projection solver `updateOffAxisProjection`, which maps the
  smoothed position, the screen half-extents and the parallax strength to an
  asymmetric frustum, a camera position and a camera rotation.

Constants (`nearClip`, `farClip`, `eyeDistance`, and the default settings)
are taken verbatim from the source.
-/

/-- Near clip plane distance, `const nearClip = 0.1`. -/
def nearClip : ℚ := 1/10

/-- Far clip plane distance, `const farClip = 1000`. -/
def farClip : ℚ := 1000

/-- Distance from screen plane to the eye, `const eyeDistance = 5`
inside `updateOffAxisProjection`. -/
def eyeDistance : ℚ := 5

/-- Default smoothing factor, `let smoothingAmount = 0.15`. -/
def smoothingAmount : ℚ := 3/20

/-- Default parallax strength, `let parallaxStrength = 0.40`. -/
def parallaxStrength : ℚ := 2/5

/-- A 2D point/vector over ℚ (used for targets and smoothed positions). -/
structure Vec2 where
  x : ℚ
  y : ℚ
deriving DecidableEq, Repr

/-- Screen half-extents in world units, `boxGroup.userData = { halfWidth, halfHeight }`. -/
structure ScreenExtent where
  halfWidth : ℚ
  halfHeight : ℚ
deriving DecidableEq, Repr

/-- The asymmetric frustum parameters passed to `makePerspective`. -/
structure FrustumParams where
  left : ℚ
  right : ℚ
  bottom : ℚ
  top : ℚ
  near : ℚ
  far : ℚ
deriving DecidableEq, Repr

/-- The observable camera state written by `updateOffAxisProjection`:
the frustum handed to `projectionMatrix.makePerspective`, the position set by
`position.set(eyeX, eyeY, eyeDistance)` and the Euler rotation set by
`rotation.set(0, 0, 0)`. -/
structure CameraState where
  frustum : FrustumParams
  posX : ℚ
  posY : ℚ
  posZ : ℚ
  rotX : ℚ
  rotY : ℚ
  rotZ : ℚ
deriving DecidableEq, Repr

/-- The off-axis projection solver, from `updateOffAxisProjection`:

    const eyeX = -currentX * halfWidth * parallaxStrength;
    const eyeY = currentY * halfHeight * parallaxStrength;
    const nearOverDist = nearClip / eyeDistance;
    const left = (-halfWidth - eyeX) * nearOverDist;
    const right = (halfWidth - eyeX) * nearOverDist;
    const bottom = (-halfHeight - eyeY) * nearOverDist;
    const top = (halfHeight - eyeY) * nearOverDist;
    threeCamera.projectionMatrix.makePerspective(left, right, bottom, top, nearClip, farClip);
    threeCamera.position.set(eyeX, eyeY, eyeDistance);
    threeCamera.rotation.set(0, 0, 0);

(The first variant writes `screenLeft = -halfWidth` etc. first; the formulas
are identical in both variants.) The mutable module variables `currentX`,
`currentY` and `parallaxStrength` are passed explicitly. -/
def updateOffAxisProjection (current : Vec2) (ext : ScreenExtent) (strength : ℚ) :
    CameraState :=
  let eyeX := -current.x * ext.halfWidth * strength
  let eyeY := current.y * ext.halfHeight * strength
  let nearOverDist := nearClip / eyeDistance
  let left := (-ext.halfWidth - eyeX) * nearOverDist
  let right := (ext.halfWidth - eyeX) * nearOverDist
  let bottom := (-ext.halfHeight - eyeY) * nearOverDist
  let top := (ext.halfHeight - eyeY) * nearOverDist
  ⟨⟨left, right, bottom, top, nearClip, farClip⟩, eyeX, eyeY, eyeDistance, 0, 0, 0⟩

/-- A single detection's bounding box center, as consumed from
`detection.boundingBox` (`bbox.xCenter`, `bbox.yCenter`). -/
structure DetectionSample where
  xCenter : ℚ
  yCenter : ℚ
deriving DecidableEq, Repr

/-- The results object delivered by the face-detection callback;
the code only reads `results.detections`. -/
structure FaceResults where
  detections : List DetectionSample

/-- Initial target, `let targetX = 0, targetY = 0`. -/
def initialTarget : Vec2 := ⟨0, 0⟩

/-- The target update performed by `onFaceResults`:

    if (results.detections.length > 0) {
        const detection = results.detections[0];
        const bbox = detection.boundingBox;
        targetX = (bbox.xCenter - 0.5) * 2;
        targetY = (bbox.yCenter - 0.5) * 2;
    }

Returns the new `(targetX, targetY)` given the previous one (unchanged when
no detection is present). Drawing side effects are not modelled. -/
def onFaceResults (results : FaceResults) (target : Vec2) : Vec2 :=
  match results.detections with
  | [] => target
  | d :: _ => ⟨(d.xCenter - 1/2) * 2, (d.yCenter - 1/2) * 2⟩

/-- One scalar smoothing update from `animate`:
`current += (target - current) * smoothingAmount`. -/
def smoothStep (target current smoothing : ℚ) : ℚ :=
  current + (target - current) * smoothing

/-- The per-tick smoothing of both coordinates at the top of `animate`:

    currentX += (targetX - currentX) * smoothingAmount;
    currentY += (targetY - currentY) * smoothingAmount;
-/
def animateSmooth (target current : Vec2) (smoothing : ℚ) : Vec2 :=
  ⟨smoothStep target.x current.x smoothing, smoothStep target.y current.y smoothing⟩

/-- `n` consecutive ticks of the smoothing update with a held-fixed target. -/
def animateIter (target : Vec2) (smoothing : ℚ) : ℕ → Vec2 → Vec2
  | 0, c => c
  | n + 1, c => animateIter target smoothing n (animateSmooth target c smoothing)

/-- `n` consecutive scalar smoothing updates with a held-fixed target. -/
def smoothIter (target smoothing : ℚ) : ℕ → ℚ → ℚ
  | 0, c => c
  | n + 1, c => smoothIter target smoothing n (smoothStep target c smoothing)

/-- C4: end-to-end scenario at `halfWidth = 2`, `halfHeight = 9/8`,
`parallaxStrength = 2/5`. With `current = (0,0)` the solver returns
`left = -0.04`, `right = 0.04`, `bottom = -0.0225`, `top = 0.0225`; with
`current = (1,0)` it returns `eyeX = -0.8`, `left = -0.024`, `right = 0.056`
(exact rational arithmetic). -/
theorem solver_end_to_end_scenario :
    (updateOffAxisProjection ⟨0, 0⟩ ⟨2, 9/8⟩ (2/5)).frustum.left = -4/100 ∧
    (updateOffAxisProjection ⟨0, 0⟩ ⟨2, 9/8⟩ (2/5)).frustum.right = 4/100 ∧
    (updateOffAxisProjection ⟨0, 0⟩ ⟨2, 9/8⟩ (2/5)).frustum.bottom = -225/10000 ∧
    (updateOffAxisProjection ⟨0, 0⟩ ⟨2, 9/8⟩ (2/5)).frustum.top = 225/10000 ∧
    (updateOffAxisProjection ⟨1, 0⟩ ⟨2, 9/8⟩ (2/5)).posX = -8/10 ∧
    (updateOffAxisProjection ⟨1, 0⟩ ⟨2, 9/8⟩ (2/5)).frustum.left = -24/1000 ∧
    (updateOffAxisProjection ⟨1, 0⟩ ⟨2, 9/8⟩ (2/5)).frustum.right = 56/1000 := by
  refine ⟨?_, ?_, ?_, ?_, ?_, ?_, ?_⟩ <;>
    simp [updateOffAxisProjection, nearClip, eyeDistance] <;> norm_num

/-- C3: with `current = (0,0)` the solver yields a symmetric frustum,
`left = -right` and `bottom = -top`, equal to the symmetric-camera bounds
`left = -halfWidth * nearClip / eyeDistance`,
`bottom = -halfHeight * nearClip / eyeDistance`. -/
theorem solver_centering_symmetric (ext : ScreenExtent) (strength : ℚ)
    (hW : 0 < ext.halfWidth) (hH : 0 < ext.halfHeight) :
    (updateOffAxisProjection ⟨0, 0⟩ ext strength).frustum.left =
      -(updateOffAxisProjection ⟨0, 0⟩ ext strength).frustum.right ∧
    (updateOffAxisProjection ⟨0, 0⟩ ext strength).frustum.bottom =
      -(updateOffAxisProjection ⟨0, 0⟩ ext strength).frustum.top ∧
    (updateOffAxisProjection ⟨0, 0⟩ ext strength).frustum.left =
      -ext.halfWidth * nearClip / eyeDistance ∧
    (updateOffAxisProjection ⟨0, 0⟩ ext strength).frustum.right =
      ext.halfWidth * nearClip / eyeDistance ∧
    (updateOffAxisProjection ⟨0, 0⟩ ext strength).frustum.bottom =
      -ext.halfHeight * nearClip / eyeDistance ∧
    (updateOffAxisProjection ⟨0, 0⟩ ext strength).frustum.top =
      ext.halfHeight * nearClip / eyeDistance := by
  refine ⟨?_, ?_, ?_, ?_, ?_, ?_⟩ <;>
    simp [updateOffAxisProjection, nearClip, eyeDistance] <;> ring

/-- Witness for `solver_centering_symmetric` at `ext = ⟨2, 9/8⟩`, `strength = 2/5`. -/
theorem solver_centering_symmetric_witness :
    (updateOffAxisProjection ⟨0, 0⟩ ⟨2, 9/8⟩ (2/5)).frustum.left =
      -(updateOffAxisProjection ⟨0, 0⟩ ⟨2, 9/8⟩ (2/5)).frustum.right :=
  (solver_centering_symmetric ⟨2, 9/8⟩ (2/5) (by norm_num) (by norm_num)).1

/-- C1: for every smoothed input with coordinates in `[-1,1]` and positive
`strength`, `halfWidth`, `halfHeight`, the solver produces a frustum with
`left < right` and `bottom < top`. -/
theorem solver_frustum_wellformed (current : Vec2) (ext : ScreenExtent) (strength : ℚ)
    (hx0 : -1 ≤ current.x) (hx1 : current.x ≤ 1)
    (hy0 : -1 ≤ current.y) (hy1 : current.y ≤ 1)
    (hs : 0 < strength) (hW : 0 < ext.halfWidth) (hH : 0 < ext.halfHeight) :
    (updateOffAxisProjection current ext strength).frustum.left <
      (updateOffAxisProjection current ext strength).frustum.right ∧
    (updateOffAxisProjection current ext strength).frustum.bottom <
      (updateOffAxisProjection current ext strength).frustum.top := by
  constructor <;>
  · simp only [updateOffAxisProjection, nearClip, eyeDistance]
    norm_num
    linarith

/-- Witness for `solver_frustum_wellformed` at `current = (1/2, -1/2)`,
`ext = ⟨2, 9/8⟩`, `strength = 2/5`. -/
theorem solver_frustum_wellformed_witness :
    (updateOffAxisProjection ⟨1/2, -1/2⟩ ⟨2, 9/8⟩ (2/5)).frustum.left <
      (updateOffAxisProjection ⟨1/2, -1/2⟩ ⟨2, 9/8⟩ (2/5)).frustum.right ∧
    (updateOffAxisProjection ⟨1/2, -1/2⟩ ⟨2, 9/8⟩ (2/5)).frustum.bottom <
      (updateOffAxisProjection ⟨1/2, -1/2⟩ ⟨2, 9/8⟩ (2/5)).frustum.top :=
  solver_frustum_wellformed ⟨1/2, -1/2⟩ ⟨2, 9/8⟩ (2/5) (by norm_num) (by norm_num)
    (by norm_num) (by norm_num) (by norm_num) (by norm_num) (by norm_num)

/-- C10: the frustum size is independent of head position: for every smoothed
position and every strength, `right - left = 2 * halfWidth * nearClip / eyeDistance`
and `top - bottom = 2 * halfHeight * nearClip / eyeDistance`; lateral eye
movement only translates the frustum window. -/
theorem solver_frustum_size_invariant (current : Vec2) (ext : ScreenExtent) (strength : ℚ) :
    (updateOffAxisProjection current ext strength).frustum.right -
      (updateOffAxisProjection current ext strength).frustum.left =
      2 * ext.halfWidth * nearClip / eyeDistance ∧
    (updateOffAxisProjection current ext strength).frustum.top -
      (updateOffAxisProjection current ext strength).frustum.bottom =
      2 * ext.halfHeight * nearClip / eyeDistance := by
  constructor <;>
  · simp only [updateOffAxisProjection, nearClip, eyeDistance]
    ring

/-- C7: the solver computes `eyeX = -current.x * halfWidth * strength`
(X negated for the mirrored camera feed), `eyeY = current.y * halfHeight * strength`
(Y not inverted), places the camera at `(eyeX, eyeY, eyeDistance)` and keeps
the rotation at identity. -/
theorem solver_eye_placement (current : Vec2) (ext : ScreenExtent) (strength : ℚ) :
    (updateOffAxisProjection current ext strength).posX =
      -current.x * ext.halfWidth * strength ∧
    (updateOffAxisProjection current ext strength).posY =
      current.y * ext.halfHeight * strength ∧
    (updateOffAxisProjection current ext strength).posZ = eyeDistance ∧
    (updateOffAxisProjection current ext strength).rotX = 0 ∧
    (updateOffAxisProjection current ext strength).rotY = 0 ∧
    (updateOffAxisProjection current ext strength).rotZ = 0 :=
  ⟨rfl, rfl, rfl, rfl, rfl, rfl⟩

/-- Evaluation of the solver's `left` bound as a polynomial in the inputs. -/
lemma updateOffAxisProjection_left_eval (current : Vec2) (ext : ScreenExtent) (strength : ℚ) :
    (updateOffAxisProjection current ext strength).frustum.left =
      (-ext.halfWidth + current.x * ext.halfWidth * strength) * (1/50) := by
  simp only [updateOffAxisProjection, nearClip, eyeDistance]
  ring

/-- Evaluation of the solver's `right` bound as a polynomial in the inputs. -/
lemma updateOffAxisProjection_right_eval (current : Vec2) (ext : ScreenExtent) (strength : ℚ) :
    (updateOffAxisProjection current ext strength).frustum.right =
      (ext.halfWidth + current.x * ext.halfWidth * strength) * (1/50) := by
  simp only [updateOffAxisProjection, nearClip, eyeDistance]
  ring

/-- C2 counterexample: at `halfWidth = 2`, `halfHeight = 9/8`,
`strength = 2/5`, `current.y = 0`, increasing `current.x` from `0` to `1`
makes `right` strictly larger (`0.04 < 0.056`) and `|left|` strictly smaller
(`0.024 < 0.04`), refuting the claim that `right` decreases and `|left|`
increases as `current.x` increases. -/
theorem solver_shift_direction_counterexample :
    (updateOffAxisProjection ⟨0, 0⟩ ⟨2, 9/8⟩ (2/5)).frustum.right <
      (updateOffAxisProjection ⟨1, 0⟩ ⟨2, 9/8⟩ (2/5)).frustum.right ∧
    |(updateOffAxisProjection ⟨1, 0⟩ ⟨2, 9/8⟩ (2/5)).frustum.left| <
      |(updateOffAxisProjection ⟨0, 0⟩ ⟨2, 9/8⟩ (2/5)).frustum.left| := by
  rw [updateOffAxisProjection_right_eval, updateOffAxisProjection_right_eval,
    updateOffAxisProjection_left_eval, updateOffAxisProjection_left_eval]
  norm_num
  rw [abs_of_pos (by norm_num : (0:ℚ) < 3/125), abs_of_pos (by norm_num : (0:ℚ) < 1/25)]
  norm_num

/-- C2 amended: with `halfWidth, halfHeight, strength > 0` and `current.y`
fixed, as `current.x` increases from `0` to positive values (while
`current.x * strength ≤ 1`), the solver's `right` strictly increases and
`|left|` strictly decreases: the eye displacement `eyeX` is the negation of
`current.x * halfWidth * strength`, so positive `current.x` moves the eye in
the negative-X direction and the frustum window shifts accordingly. -/
theorem solver_shift_direction_amended (ext : ScreenExtent) (strength y : ℚ)
    (hW : 0 < ext.halfWidth) (hH : 0 < ext.halfHeight) (hs : 0 < strength)
    (x1 x2 : ℚ) (hx1 : 0 ≤ x1) (h12 : x1 < x2) (hx2 : x2 * strength ≤ 1) :
    (updateOffAxisProjection ⟨x1, y⟩ ext strength).frustum.right <
      (updateOffAxisProjection ⟨x2, y⟩ ext strength).frustum.right ∧
    |(updateOffAxisProjection ⟨x2, y⟩ ext strength).frustum.left| <
      |(updateOffAxisProjection ⟨x1, y⟩ ext strength).frustum.left| := by
  have hmul : x1 * strength < x2 * strength := mul_lt_mul_of_pos_right h12 hs
  have h1s : x1 * strength < 1 := lt_of_lt_of_le hmul hx2
  have key : x1 * ext.halfWidth * strength < x2 * ext.halfWidth * strength := by
    nlinarith [mul_lt_mul_of_pos_right hmul hW]
  constructor
  · rw [updateOffAxisProjection_right_eval, updateOffAxisProjection_right_eval]
    dsimp only
    nlinarith [key]
  · rw [updateOffAxisProjection_left_eval, updateOffAxisProjection_left_eval]
    dsimp only
    have l1 : (-ext.halfWidth + x1 * ext.halfWidth * strength) * (1/50) ≤ 0 := by
      nlinarith [mul_nonneg hW.le (sub_nonneg.2 h1s.le)]
    have l2 : (-ext.halfWidth + x2 * ext.halfWidth * strength) * (1/50) ≤ 0 := by
      nlinarith [mul_nonneg hW.le (sub_nonneg.2 hx2)]
    rw [abs_of_nonpos l1, abs_of_nonpos l2]
    nlinarith [key]

/-- Witness for `solver_shift_direction_amended` at `ext = ⟨2, 9/8⟩`,
`strength = 2/5`, `y = 0`, `x1 = 0`, `x2 = 1`. -/
theorem solver_shift_direction_amended_witness :
    (updateOffAxisProjection ⟨(0 : ℚ), 0⟩ ⟨2, 9/8⟩ (2/5)).frustum.right <
      (updateOffAxisProjection ⟨(1 : ℚ), 0⟩ ⟨2, 9/8⟩ (2/5)).frustum.right ∧
    |(updateOffAxisProjection ⟨(1 : ℚ), 0⟩ ⟨2, 9/8⟩ (2/5)).frustum.left| <
      |(updateOffAxisProjection ⟨(0 : ℚ), 0⟩ ⟨2, 9/8⟩ (2/5)).frustum.left| :=
  solver_shift_direction_amended ⟨2, 9/8⟩ (2/5) 0 (by norm_num) (by norm_num)
    (by norm_num) 0 1 (by norm_num) (by norm_num) (by norm_num)

/-- C8: the detection-to-target mapping takes the first detection's bounding
box center and computes `target.x = (centerX - 0.5) * 2`,
`target.y = (centerY - 0.5) * 2`; for centers in `[0,1]` the resulting target
coordinates lie in `[-1,1]`. -/
theorem target_mapping_bounded (d : DetectionSample) (rest : List DetectionSample) (t : Vec2) :
    onFaceResults ⟨d :: rest⟩ t = ⟨(d.xCenter - 1/2) * 2, (d.yCenter - 1/2) * 2⟩ ∧
    (0 ≤ d.xCenter → d.xCenter ≤ 1 → 0 ≤ d.yCenter → d.yCenter ≤ 1 →
      -1 ≤ (onFaceResults ⟨d :: rest⟩ t).x ∧ (onFaceResults ⟨d :: rest⟩ t).x ≤ 1 ∧
      -1 ≤ (onFaceResults ⟨d :: rest⟩ t).y ∧ (onFaceResults ⟨d :: rest⟩ t).y ≤ 1) := by
  refine ⟨rfl, ?_⟩
  intro hx0 hx1 hy0 hy1
  simp only [onFaceResults]
  refine ⟨by linarith, by linarith, by linarith, by linarith⟩

/-- Witness for `target_mapping_bounded` at `d = ⟨3/4, 1/4⟩`, `rest = []`,
`t = (0,0)`. -/
theorem target_mapping_bounded_witness :
    -1 ≤ (onFaceResults ⟨[⟨3/4, 1/4⟩]⟩ ⟨0, 0⟩).x ∧
    (onFaceResults ⟨[⟨3/4, 1/4⟩]⟩ ⟨0, 0⟩).x ≤ 1 ∧
    -1 ≤ (onFaceResults ⟨[⟨3/4, 1/4⟩]⟩ ⟨0, 0⟩).y ∧
    (onFaceResults ⟨[⟨3/4, 1/4⟩]⟩ ⟨0, 0⟩).y ≤ 1 :=
  (target_mapping_bounded ⟨3/4, 1/4⟩ [] ⟨0, 0⟩).2
    (by norm_num) (by norm_num) (by norm_num) (by norm_num)

/-- C9: when the detection callback delivers zero detections the stored target
is left unchanged, and before any detection has arrived the target is `(0,0)`. -/
theorem no_detection_keeps_target (t : Vec2) :
    onFaceResults ⟨[]⟩ t = t ∧ initialTarget = ⟨0, 0⟩ :=
  ⟨rfl, rfl⟩

/-- If `current ≤ target`, one smoothing step stays between them. -/
lemma smoothStep_le_of_le (t c f : ℚ) (hf0 : 0 ≤ f) (hf1 : f ≤ 1) (h : c ≤ t) :
    c ≤ smoothStep t c f ∧ smoothStep t c f ≤ t := by
  unfold smoothStep
  constructor
  · nlinarith [mul_nonneg (sub_nonneg.2 h) hf0]
  · nlinarith [mul_nonneg (sub_nonneg.2 h) (sub_nonneg.2 hf1)]

/-- If `target ≤ current`, one smoothing step stays between them. -/
lemma smoothStep_ge_of_ge (t c f : ℚ) (hf0 : 0 ≤ f) (hf1 : f ≤ 1) (h : t ≤ c) :
    smoothStep t c f ≤ c ∧ t ≤ smoothStep t c f := by
  unfold smoothStep
  constructor
  · nlinarith [mul_nonneg (sub_nonneg.2 h) hf0]
  · nlinarith [mul_nonneg (sub_nonneg.2 h) (sub_nonneg.2 hf1)]

/-- One smoothing step of two values in `[-1,1]` stays in `[-1,1]`. -/
lemma smoothStep_bounded (t c f : ℚ) (hf0 : 0 ≤ f) (hf1 : f ≤ 1)
    (ht0 : -1 ≤ t) (ht1 : t ≤ 1) (hc0 : -1 ≤ c) (hc1 : c ≤ 1) :
    -1 ≤ smoothStep t c f ∧ smoothStep t c f ≤ 1 := by
  rcases le_total c t with h | h
  · obtain ⟨h1, h2⟩ := smoothStep_le_of_le t c f hf0 hf1 h
    exact ⟨le_trans hc0 h1, le_trans h2 ht1⟩
  · obtain ⟨h1, h2⟩ := smoothStep_ge_of_ge t c f hf0 hf1 h
    exact ⟨le_trans ht0 h2, le_trans h1 hc1⟩

/-- C5: the per-tick smoothing update preserves boundedness: for every
smoothing factor in `(0,1]`, if the target coordinates are in `[-1,1]` and the
current position starts in `[-1,1]`, then after any number of ticks the
current position remains in `[-1,1]`. -/
theorem smoothing_preserves_bounds (target : Vec2) (f : ℚ) (hf0 : 0 < f) (hf1 : f ≤ 1)
    (htx0 : -1 ≤ target.x) (htx1 : target.x ≤ 1)
    (hty0 : -1 ≤ target.y) (hty1 : target.y ≤ 1) :
    ∀ (n : ℕ) (c : Vec2), -1 ≤ c.x → c.x ≤ 1 → -1 ≤ c.y → c.y ≤ 1 →
      -1 ≤ (animateIter target f n c).x ∧ (animateIter target f n c).x ≤ 1 ∧
      -1 ≤ (animateIter target f n c).y ∧ (animateIter target f n c).y ≤ 1
  | 0, _, hcx0, hcx1, hcy0, hcy1 => ⟨hcx0, hcx1, hcy0, hcy1⟩
  | n + 1, c, hcx0, hcx1, hcy0, hcy1 => by
    rw [animateIter]
    have hx := smoothStep_bounded target.x c.x f hf0.le hf1 htx0 htx1 hcx0 hcx1
    have hy := smoothStep_bounded target.y c.y f hf0.le hf1 hty0 hty1 hcy0 hcy1
    exact smoothing_preserves_bounds target f hf0 hf1 htx0 htx1 hty0 hty1 n
      (animateSmooth target c f) hx.1 hx.2 hy.1 hy.2

/-- Witness for `smoothing_preserves_bounds` at `target = (3/4, -1/2)`,
`f = 3/20`, `n = 5`, `c = (0,0)`. -/
theorem smoothing_preserves_bounds_witness :
    -1 ≤ (animateIter ⟨3/4, -1/2⟩ (3/20) 5 ⟨0, 0⟩).x ∧
    (animateIter ⟨3/4, -1/2⟩ (3/20) 5 ⟨0, 0⟩).x ≤ 1 ∧
    -1 ≤ (animateIter ⟨3/4, -1/2⟩ (3/20) 5 ⟨0, 0⟩).y ∧
    (animateIter ⟨3/4, -1/2⟩ (3/20) 5 ⟨0, 0⟩).y ≤ 1 :=
  smoothing_preserves_bounds ⟨3/4, -1/2⟩ (3/20) (by norm_num) (by norm_num)
    (by norm_num) (by norm_num) (by norm_num) (by norm_num) 5 ⟨0, 0⟩
    (by norm_num) (by norm_num) (by norm_num) (by norm_num)

/-- Closed form of the smoothing iteration toward target `1`. -/
lemma smoothIter_one_closed (f : ℚ) : ∀ (n : ℕ) (c : ℚ),
    smoothIter 1 f n c = 1 - (1 - f) ^ n * (1 - c)
  | 0, c => by simp [smoothIter]
  | n + 1, c => by
    rw [smoothIter, smoothIter_one_closed f n]
    unfold smoothStep
    ring

/-- C6: iterating the smoothing update with held target `1`, start `0` and
factor `3/20` exceeds `0.95` after `20` steps; and with any held-fixed target
and factor in `(0,1]` the iterates move monotonically toward the target
without ever overshooting it. -/
theorem smoothing_convergence :
    19/20 < smoothIter 1 (3/20) 20 0 ∧
    ∀ (t f : ℚ), 0 < f → f ≤ 1 → ∀ (c : ℚ) (n : ℕ),
      (c ≤ t → smoothIter t f n c ≤ smoothIter t f (n + 1) c ∧ smoothIter t f n c ≤ t) ∧
      (t ≤ c → smoothIter t f (n + 1) c ≤ smoothIter t f n c ∧ t ≤ smoothIter t f n c) := by
  constructor
  · rw [smoothIter_one_closed]
    norm_num
  · intro t f hf0 hf1 c n
    induction n generalizing c with
    | zero =>
      simp only [smoothIter, Nat.zero_add]
      constructor
      · intro h
        exact ⟨(smoothStep_le_of_le t c f hf0.le hf1 h).1, h⟩
      · intro h
        exact ⟨(smoothStep_ge_of_ge t c f hf0.le hf1 h).1, h⟩
    | succ n ih =>
      simp only [smoothIter]
      constructor
      · intro h
        have hstep := smoothStep_le_of_le t c f hf0.le hf1 h
        have hrec := (ih (smoothStep t c f)).1 hstep.2
        exact ⟨hrec.1, hrec.2⟩
      · intro h
        have hstep := smoothStep_ge_of_ge t c f hf0.le hf1 h
        have hrec := (ih (smoothStep t c f)).2 hstep.2
        exact ⟨hrec.1, hrec.2⟩

/-- Witness for the quantified part of `smoothing_convergence` at `t = 1`,
`f = 3/20`, `c = 0`, `n = 4`. -/
theorem smoothing_convergence_witness :
    smoothIter 1 (3/20) 4 0 ≤ smoothIter 1 (3/20) (4 + 1) 0 ∧
    smoothIter 1 (3/20) 4 0 ≤ 1 :=
  (smoothing_convergence.2 1 (3/20) (by norm_num) (by norm_num) 0 4).1 (by norm_num)
